import Mathlib

/-!
Shallow embedding of the computational-geometry core of the repository
(`Function.cpp` and its header).  Coordinates are modelled as exact
rationals; the C++ `double` epsilon comparisons are carried over with the
literal thresholds (`1e-9`, `1e-10`), which on the integer pixel inputs of
the application coincide with exact comparisons.  Conversions of `double`
values to `long long` (truncation towards zero) are modelled by `trunc64`.
-/

set_option maxHeartbeats 1600000

set_option allowUnsafeReducibility true
attribute [local semireducible] Rat.add Rat.mul Rat.sub Rat.inv

namespace CompGeo

/-- A 2-D point, as `QPointF` (coordinates modelled exactly). -/
structure Pt where
  x : ℚ
  y : ℚ
deriving DecidableEq

/-- C++ truncation of a floating value to `long long` (rounds towards zero). -/
def trunc64 (q : ℚ) : ℤ :=
  if 0 ≤ q then ⌊q⌋ else ⌈q⌉

/-- `DrawingWidget::crossProduct`: doubled signed area of the triangle
`(p1, p2, p3)`, i.e. the cross product of `p1→p2` with `p1→p3`. -/
def crossProduct (p1 p2 p3 : Pt) : ℚ :=
  (p2.x - p1.x) * (p3.y - p1.y) - (p2.y - p1.y) * (p3.x - p1.x)

/-- `DrawingWidget::computeAreaSign`: shoelace sum over the vertex list with
wrap-around indexing `(i+1) % n`. -/
def computeAreaSign (pts : List Pt) : ℚ :=
  ∑ i ∈ Finset.range pts.length,
    ((pts.getD i ⟨0, 0⟩).x * (pts.getD ((i + 1) % pts.length) ⟨0, 0⟩).y -
      (pts.getD ((i + 1) % pts.length) ⟨0, 0⟩).x * (pts.getD i ⟨0, 0⟩).y)

/-- `DrawingWidget::calculatePolygonArea`: the absolute value of the shoelace
sum, halved (the loop in the source repeats the `computeAreaSign` loop). -/
def calculatePolygonArea (pts : List Pt) : ℚ :=
  |computeAreaSign pts| / 2

/-- `DrawingWidget::onSegment`: bounding-box check plus collinearity with
tolerance `1e-10`. -/
def onSegment (a b c : Pt) : Bool :=
  if c.x < min a.x b.x ∨ c.x > max a.x b.x ∨ c.y < min a.y b.y ∨ c.y > max a.y b.y then
    false
  else
    |crossProduct a b c| < 1 / 10000000000

/-- The `cross` lambda inside `DrawingWidget::segmentsIntersect`: each
coordinate difference is cast to `long long` (truncated) before multiplying;
the resulting `double` is then truncated on assignment to `long long`. -/
def segLLCross (a b c : Pt) : ℤ :=
  trunc64 ((trunc64 (b.x - a.x) : ℚ) * (c.y - a.y) - (trunc64 (b.y - a.y) : ℚ) * (c.x - a.x))

/-- `DrawingWidget::segmentsIntersect`: strict crossing by orientation signs,
plus endpoint-in-interior collinear touches (shared endpoints excluded). -/
def segmentsIntersect (p1 p2 q1 q2 : Pt) : Bool :=
  let o1 := segLLCross p1 p2 q1
  let o2 := segLLCross p1 p2 q2
  let o3 := segLLCross q1 q2 p1
  let o4 := segLLCross q1 q2 p2
  if ((o1 > 0 ∧ o2 < 0) ∨ (o1 < 0 ∧ o2 > 0)) ∧ ((o3 > 0 ∧ o4 < 0) ∨ (o3 < 0 ∧ o4 > 0)) then
    true
  else if o1 = 0 ∧ onSegment p1 p2 q1 ∧ ¬(q1 = p1 ∨ q1 = p2) then true
  else if o2 = 0 ∧ onSegment p1 p2 q2 ∧ ¬(q2 = p1 ∨ q2 = p2) then true
  else if o3 = 0 ∧ onSegment q1 q2 p1 ∧ ¬(p1 = q1 ∨ p1 = q2) then true
  else if o4 = 0 ∧ onSegment q1 q2 p2 ∧ ¬(p2 = q1 ∨ p2 = q2) then true
  else false

/-- Body of the inner loop of `isSimplePolygon`: the test of edge pair
`(i, j)` — `false` on a zero-length edge `j`, skip (`true`) for the same or
adjacent edge, otherwise no intersection allowed. -/
def edgePairOk (poly : List Pt) (n i j : Nat) : Bool :=
  if poly.getD j ⟨0, 0⟩ = poly.getD ((j + 1) % n) ⟨0, 0⟩ then false
  else if i = j ∨ j = (i + 1) % n ∨ i = (j + 1) % n then true
  else
    !segmentsIntersect (poly.getD i ⟨0, 0⟩) (poly.getD ((i + 1) % n) ⟨0, 0⟩)
      (poly.getD j ⟨0, 0⟩) (poly.getD ((j + 1) % n) ⟨0, 0⟩)

/-- Body of the outer loop of `isSimplePolygon`: edge `i` must not be
zero-length and must pass the inner scan against every edge `j`. -/
def edgeOk (poly : List Pt) (n i : Nat) : Bool :=
  if poly.getD i ⟨0, 0⟩ = poly.getD ((i + 1) % n) ⟨0, 0⟩ then false
  else (List.range n).all (edgePairOk poly n i)

/-- `DrawingWidget::isSimplePolygon`: trivially true below 4 vertices; for
`n ≥ 4` scan every ordered edge pair, rejecting zero-length edges and
non-adjacent intersecting edges. -/
def isSimplePolygon (poly : List Pt) : Bool :=
  if poly.length < 3 then true
  else if poly.length = 3 then true
  else (List.range poly.length).all (edgeOk poly poly.length)

/-- The `Triangle` helper struct of the repository. -/
structure Triangle where
  p1 : Pt
  p2 : Pt
  p3 : Pt
deriving DecidableEq

/-- `Triangle::contains`: area-sum membership test with tolerance `1e-10`. -/
def Triangle.contains (t : Triangle) (pt : Pt) : Bool :=
  let totalArea := |(t.p2.x - t.p1.x) * (t.p3.y - t.p1.y) - (t.p2.y - t.p1.y) * (t.p3.x - t.p1.x)|
  let area1 := |(t.p1.x - pt.x) * (t.p2.y - pt.y) - (t.p1.y - pt.y) * (t.p2.x - pt.x)|
  let area2 := |(t.p2.x - pt.x) * (t.p3.y - pt.y) - (t.p2.y - pt.y) * (t.p3.x - pt.x)|
  let area3 := |(t.p3.x - pt.x) * (t.p1.y - pt.y) - (t.p3.y - pt.y) * (t.p1.x - pt.x)|
  |area1 + area2 + area3 - totalArea| < 1 / 10000000000

/-- The `EPSILON` constant of `getLineSegmentIntersection`. -/
def segEps : ℚ := 1 / 1000000000

/-- The determinant `det` of `getLineSegmentIntersection`. -/
def segDet (p1 p2 p3 p4 : Pt) : ℚ :=
  (p2.x - p1.x) * (p4.y - p3.y) - (p2.y - p1.y) * (p4.x - p3.x)

/-- The Cramer parameter `t` (position along `p1p2`). -/
def segT (p1 p2 p3 p4 : Pt) : ℚ :=
  ((p3.x - p1.x) * (p4.y - p3.y) - (p3.y - p1.y) * (p4.x - p3.x)) / segDet p1 p2 p3 p4

/-- The Cramer parameter `u` (position along `p3p4`). -/
def segU (p1 p2 p3 p4 : Pt) : ℚ :=
  -((p2.x - p1.x) * (p3.y - p1.y) - (p2.y - p1.y) * (p3.x - p1.x)) / segDet p1 p2 p3 p4

/-- `DrawingWidget::getLineSegmentIntersection`: Cramer-rule segment
intersection; `none` when `|det| < 1e-9`, a point and its parameter `t` only
when both `t` and `u` lie strictly inside `(eps, 1 - eps)`. -/
def getLineSegmentIntersection (p1 p2 p3 p4 : Pt) : Option (Pt × ℚ) :=
  if |segDet p1 p2 p3 p4| < segEps then none
  else if segT p1 p2 p3 p4 > segEps ∧ segT p1 p2 p3 p4 < 1 - segEps ∧
      segU p1 p2 p3 p4 > segEps ∧ segU p1 p2 p3 p4 < 1 - segEps then
    some (⟨p1.x + segT p1 p2 p3 p4 * (p2.x - p1.x),
           p1.y + segT p1 p2 p3 p4 * (p2.y - p1.y)⟩, segT p1 p2 p3 p4)
  else none

/-- `DrawingWidget::isPointInsidePolygon`: ray casting; the loop runs
`i = 0..n-1` with `j` the predecessor index, toggling on each edge that
straddles `point.y` and whose crossing lies strictly to the right. -/
def isPointInsidePolygon (point : Pt) (polygon : List Pt) : Bool :=
  let n := polygon.length
  if n < 3 then false
  else
    (List.range n).foldl
      (fun inside i =>
        let j := if i = 0 then n - 1 else i - 1
        let pi := polygon.getD i ⟨0, 0⟩
        let pj := polygon.getD j ⟨0, 0⟩
        if (pi.y > point.y) ≠ (pj.y > point.y) then
          let xIntersect := (pj.x - pi.x) * (point.y - pi.y) / (pj.y - pi.y) + pi.x
          if point.x < xIntersect then !inside else inside
        else inside)
      false

/-! ## Ear-clipping triangulation (`DrawingWidget::calculateTriangulation`) -/

/-- One candidate ear test of the scan loop: the corner at `(i+1) % n` must be
strictly convex after the `long long` cast of the cross product, and no other
remaining vertex may lie inside (or on) the candidate triangle. -/
def isValidEar (rem : List Pt) (i : Nat) : Bool :=
  let n := rem.length
  let p1 := rem.getD i ⟨0, 0⟩
  let p2 := rem.getD ((i + 1) % n) ⟨0, 0⟩
  let p3 := rem.getD ((i + 2) % n) ⟨0, 0⟩
  if trunc64 (crossProduct p1 p2 p3) > 0 then
    (List.range n).all fun j =>
      if j ≠ i ∧ j ≠ (i + 1) % n ∧ j ≠ (i + 2) % n then
        ¬(Triangle.contains ⟨p1, p2, p3⟩ (rem.getD j ⟨0, 0⟩))
      else true
  else false

/-- The inner `for` scan of the ear-clipping loop: index of the first valid
ear, if any. -/
def findEarIdx (rem : List Pt) : Option Nat :=
  (List.range rem.length).find? (isValidEar rem)

/-- The ear triangle emitted when the scan succeeds at index `i`. -/
def earTriangleAt (rem : List Pt) (i : Nat) : Triangle :=
  ⟨rem.getD i ⟨0, 0⟩, rem.getD ((i + 1) % rem.length) ⟨0, 0⟩,
    rem.getD ((i + 2) % rem.length) ⟨0, 0⟩⟩

/-- State of the ear-clipping `while` loop: the working vertex list, the
triangles emitted so far, and the `attempts` counter (which the source
initialises to `0`, resets to `0` on a successful clip, and never
increments anywhere else). -/
structure TriState where
  remaining : List Pt
  triangles : List Triangle
  attempts : Nat
deriving DecidableEq

/-- The `while (remaining.size() > 3 && attempts < maxAttempts)` loop.  `fuel`
bounds how many iterations the model is willing to unfold; `none` means the
loop had not exited within `fuel` iterations. -/
def triLoop : Nat → Nat → TriState → Option TriState
  | 0, _, _ => none
  | fuel + 1, maxAttempts, st =>
    if 3 < st.remaining.length ∧ st.attempts < maxAttempts then
      match findEarIdx st.remaining with
      | some i =>
        triLoop fuel maxAttempts
          { remaining := st.remaining.eraseIdx ((i + 1) % st.remaining.length)
            triangles := st.triangles ++ [earTriangleAt st.remaining i]
            attempts := 0 }
      | none => triLoop fuel maxAttempts st
    else some st

/-- The de-duplication of an explicitly closed polygon
(`remaining.first() == remaining.last()` drops the last vertex). -/
def dropClosingDup (pts : List Pt) : List Pt :=
  match pts.head?, pts.getLast? with
  | some a, some b => if a = b then pts.dropLast else pts
  | _, _ => pts

/-- The winding normalisation of `calculateTriangulation`: the shoelace sign
sum is computed and the vertex order is reversed exactly when it is
negative. -/
def normalizeWinding (pts : List Pt) : List Pt :=
  if computeAreaSign pts < 0 then pts.reverse else pts

/-- Outcome of `calculateTriangulation`, abstracting the GUI reporting:
`rejected` is the early-return of the two validity gates (triangles left
untouched), `aborted` the `attempts >= maxAttempts` branch (triangles
cleared), `fellThrough` the silent exit with neither three remaining
vertices nor an exhausted budget, and `success` the normal completion. -/
inductive TriResult where
  | rejected
  | aborted
  | fellThrough (triangles : List Triangle)
  | success (triangles : List Triangle)
deriving DecidableEq

/-- `DrawingWidget::calculateTriangulation`, fuelled: `none` means the main
loop had not terminated within `fuel` iterations. -/
def calculateTriangulationFuel (fuel : Nat) (polygonVertices : List Pt) :
    Option TriResult :=
  if polygonVertices.length < 3 then some .rejected
  else if ¬isSimplePolygon polygonVertices then some .rejected
  else
    match triLoop fuel ((normalizeWinding (dropClosingDup polygonVertices)).length * 2)
        ⟨normalizeWinding (dropClosingDup polygonVertices), [], 0⟩ with
    | none => none
    | some st =>
      if st.remaining.length = 3 then
        some (.success (st.triangles ++
          [⟨st.remaining.getD 0 ⟨0, 0⟩, st.remaining.getD 1 ⟨0, 0⟩,
            st.remaining.getD 2 ⟨0, 0⟩⟩]))
      else if (normalizeWinding (dropClosingDup polygonVertices)).length * 2 ≤ st.attempts then
        some .aborted
      else some (.fellThrough st.triangles)

/-- When the full ear scan of the current working list finds no valid ear,
the loop body changes nothing, so for no amount of fuel does the `while`
loop ever exit: `calculateTriangulation` spins forever (the source never
increments `attempts`, so the `attempts < maxAttempts` guard never trips). -/
theorem triLoop_stuck (maxA : Nat) (st : TriState)
    (hlen : 3 < st.remaining.length) (hatt : st.attempts < maxA)
    (hscan : findEarIdx st.remaining = none) :
    ∀ fuel, triLoop fuel maxA st = none := by
  intro fuel
  induction fuel with
  | zero => rfl
  | succ f ih =>
    simp only [triLoop, if_pos (And.intro hlen hatt), hscan]
    exact ih

/-- A polygon that the validator accepts (its two copies of `(1,1)` are
non-adjacent, and edges that merely touch at a shared coordinate are not
reported by `segmentsIntersect`), yet on which every ear candidate contains
the duplicate vertex, so the ear scan never finds a valid ear. -/
def hourglass : List Pt := [⟨0, 0⟩, ⟨2, 0⟩, ⟨1, 1⟩, ⟨2, 2⟩, ⟨0, 2⟩, ⟨1, 1⟩]

/-- C1: the claim that the ear-clipping triangulation always terminates
within a `2n` restart budget and otherwise aborts with an empty triangle
list is violated: the `attempts` counter is never incremented, and on the
`hourglass` input (which passes both validity gates) no scan ever finds an
ear, so the loop runs forever for every fuel bound and the abort path is
never reached. -/
theorem c1_triangulation_never_terminates_on_hourglass :
    isSimplePolygon hourglass = true ∧ 3 ≤ hourglass.length ∧
      ∀ fuel, calculateTriangulationFuel fuel hourglass = none := by
  refine ⟨by decide, by decide, fun fuel => ?_⟩
  have hrem : normalizeWinding (dropClosingDup hourglass) = hourglass := by decide
  have hstuck := triLoop_stuck (hourglass.length * 2) ⟨hourglass, [], 0⟩
    (by decide) (by decide) (by decide) fuel
  simp only [calculateTriangulationFuel, hrem]
  rw [if_neg (by decide : ¬hourglass.length < 3),
    if_neg (by decide : ¬¬isSimplePolygon hourglass = true)]
  rw [hstuck]

/-! ## Shoelace algebra: invariance under rotation, antisymmetry under reversal -/

/-- One term of the shoelace loop: the contribution of edge `i`. -/
def edgeTerm (l : List Pt) (i : Nat) : ℚ :=
  (l.getD i ⟨0, 0⟩).x * (l.getD ((i + 1) % l.length) ⟨0, 0⟩).y -
    (l.getD ((i + 1) % l.length) ⟨0, 0⟩).x * (l.getD i ⟨0, 0⟩).y

theorem computeAreaSign_eq_sum (l : List Pt) :
    computeAreaSign l = ∑ i ∈ Finset.range l.length, edgeTerm l i := rfl

theorem getD_rotate_one (l : List Pt) (i : Nat) (hi : i < l.length) :
    (l.rotate 1).getD i ⟨0, 0⟩ = l.getD ((i + 1) % l.length) ⟨0, 0⟩ := by
  have hn : 0 < l.length := by omega
  have h1 : i < (l.rotate 1).length := by rw [List.length_rotate]; exact hi
  have h3 : (i + 1) % l.length < l.length := Nat.mod_lt _ hn
  rw [List.getD_eq_getElem _ _ h1, List.getD_eq_getElem _ _ h3, List.getElem_rotate]

theorem edgeTerm_rotate_one (l : List Pt) (i : Nat) (hi : i < l.length) :
    edgeTerm (l.rotate 1) i = edgeTerm l ((i + 1) % l.length) := by
  have hn : 0 < l.length := by omega
  have h3 : (i + 1) % l.length < l.length := Nat.mod_lt _ hn
  unfold edgeTerm
  rw [List.length_rotate, getD_rotate_one l i hi, getD_rotate_one l ((i + 1) % l.length) h3]

theorem sum_range_shift_mod (n : Nat) (f : Nat → ℚ) :
    ∑ i ∈ Finset.range n, f ((i + 1) % n) = ∑ i ∈ Finset.range n, f i := by
  rcases Nat.eq_zero_or_pos n with h0 | hn
  · subst h0; simp
  · refine Finset.sum_nbij' (fun i => (i + 1) % n) (fun j => (j + (n - 1)) % n)
      (fun a ha => ?_) (fun a ha => ?_) (fun a ha => ?_) (fun a ha => ?_) (fun a ha => ?_)
    · exact Finset.mem_range.mpr (Nat.mod_lt _ hn)
    · exact Finset.mem_range.mpr (Nat.mod_lt _ hn)
    · have ha' := Finset.mem_range.mp ha
      show ((a + 1) % n + (n - 1)) % n = a
      rw [Nat.mod_add_mod]
      have e : a + 1 + (n - 1) = a + n := by omega
      rw [e, Nat.add_mod_right, Nat.mod_eq_of_lt ha']
    · have ha' := Finset.mem_range.mp ha
      show ((a + (n - 1)) % n + 1) % n = a
      rw [Nat.mod_add_mod]
      have e : a + (n - 1) + 1 = a + n := by omega
      rw [e, Nat.add_mod_right, Nat.mod_eq_of_lt ha']
    · rfl

theorem computeAreaSign_rotate_one (l : List Pt) :
    computeAreaSign (l.rotate 1) = computeAreaSign l := by
  rw [computeAreaSign_eq_sum, computeAreaSign_eq_sum, List.length_rotate]
  calc ∑ i ∈ Finset.range l.length, edgeTerm (l.rotate 1) i
      = ∑ i ∈ Finset.range l.length, edgeTerm l ((i + 1) % l.length) :=
        Finset.sum_congr rfl fun i hi =>
          edgeTerm_rotate_one l i (Finset.mem_range.mp hi)
    _ = ∑ i ∈ Finset.range l.length, edgeTerm l i :=
        sum_range_shift_mod l.length (edgeTerm l)

theorem computeAreaSign_rotate (l : List Pt) (k : Nat) :
    computeAreaSign (l.rotate k) = computeAreaSign l := by
  induction k with
  | zero => rw [List.rotate_zero]
  | succ k ih =>
    have h : (l.rotate k).rotate 1 = l.rotate (k + 1) := List.rotate_rotate l k 1
    rw [← h, computeAreaSign_rotate_one, ih]

theorem getD_reverse (l : List Pt) (i : Nat) (hi : i < l.length) :
    l.reverse.getD i ⟨0, 0⟩ = l.getD (l.length - 1 - i) ⟨0, 0⟩ := by
  have h1 : i < l.reverse.length := by rw [List.length_reverse]; exact hi
  have h3 : l.length - 1 - i < l.length := by omega
  rw [List.getD_eq_getElem _ _ h1, List.getD_eq_getElem _ _ h3, List.getElem_reverse]

/-- Index transposition used by the reversal argument: edge `i` of the
reversed list is edge `revEdge n i` of the original, traversed backwards. -/
def revEdge (n i : Nat) : Nat := n - 1 - (i + 1) % n

theorem revEdge_succ_mod (n i : Nat) (hn : 0 < n) (hi : i < n) :
    (revEdge n i + 1) % n = n - 1 - i := by
  unfold revEdge
  rcases Nat.lt_or_ge (i + 1) n with h | h
  · rw [Nat.mod_eq_of_lt h]
    have e : n - 1 - (i + 1) + 1 = n - 1 - i := by omega
    rw [e]
    exact Nat.mod_eq_of_lt (by omega)
  · have e : i + 1 = n := by omega
    rw [e, Nat.mod_self]
    have e2 : n - 1 - 0 + 1 = n := by omega
    rw [e2, Nat.mod_self]
    omega

theorem edgeTerm_reverse (l : List Pt) (i : Nat) (hi : i < l.length) :
    edgeTerm l.reverse i = -edgeTerm l (revEdge l.length i) := by
  have hn : 0 < l.length := by omega
  have h3 : (i + 1) % l.length < l.length := Nat.mod_lt _ hn
  have hrev : revEdge l.length i < l.length := by unfold revEdge; omega
  unfold edgeTerm
  rw [List.length_reverse, getD_reverse l i hi, getD_reverse l ((i + 1) % l.length) h3,
    revEdge_succ_mod l.length i hn hi]
  show _ = -((l.getD (revEdge l.length i) _).x * _ - _ * (l.getD (revEdge l.length i) _).y)
  unfold revEdge
  ring

theorem revEdge_involutive (n i : Nat) (hn : 0 < n) (hi : i < n) :
    revEdge n (revEdge n i) = i := by
  show n - 1 - (revEdge n i + 1) % n = i
  rw [revEdge_succ_mod n i hn hi]
  omega

theorem computeAreaSign_reverse (l : List Pt) :
    computeAreaSign l.reverse = -computeAreaSign l := by
  rcases Nat.eq_zero_or_pos l.length with h0 | hn
  · have : l = [] := List.length_eq_zero.mp h0
    subst this
    simp [computeAreaSign]
  · rw [computeAreaSign_eq_sum, computeAreaSign_eq_sum, List.length_reverse, ← Finset.sum_neg_distrib]
    refine Finset.sum_nbij' (revEdge l.length) (revEdge l.length)
      (fun a ha => ?_) (fun a ha => ?_) (fun a ha => ?_) (fun a ha => ?_) (fun a ha => ?_)
    · exact Finset.mem_range.mpr (by unfold revEdge; omega)
    · exact Finset.mem_range.mpr (by unfold revEdge; omega)
    · exact revEdge_involutive l.length a hn (Finset.mem_range.mp ha)
    · exact revEdge_involutive l.length a hn (Finset.mem_range.mp ha)
    · exact edgeTerm_reverse l a (Finset.mem_range.mp ha)

/-- C8: the polygon area computed by `calculatePolygonArea` (absolute shoelace
sum over 2) is invariant under every cyclic rotation of the vertex list and
under reversal of the winding order. -/
theorem c8_area_rotation_reversal_invariant (l : List Pt) (k : Nat) :
    calculatePolygonArea (l.rotate k) = calculatePolygonArea l ∧
      calculatePolygonArea l.reverse = calculatePolygonArea l := by
  constructor
  · unfold calculatePolygonArea
    rw [computeAreaSign_rotate]
  · unfold calculatePolygonArea
    rw [computeAreaSign_reverse, abs_neg]

/-- A counter-clockwise triangle (positive shoelace sum in the source's
formula) that the triangulation's winding normalisation leaves untouched. -/
def triPosSum : List Pt := [⟨0, 0⟩, ⟨4, 0⟩, ⟨0, 4⟩]

/-- C6 counterexample: under the claim's own convention (`positive sum means
clockwise`, `signSum<0` means already counter-clockwise, reversal happens
exactly for clockwise polygons), `triPosSum` — whose sign sum is `16 > 0` —
would have to be reversed; the code leaves it unreversed, because the source
reverses exactly when the sign sum is negative. -/
theorem c6_counterexample_positive_sum_not_reversed :
    computeAreaSign triPosSum = 16 ∧ normalizeWinding triPosSum = triPosSum ∧
      triPosSum.reverse ≠ triPosSum := by
  refine ⟨by decide, by decide, by decide⟩

/-- C6 amended: the triangulation's normalisation reverses the vertex order
exactly when the shoelace sign sum is negative (`signSum < 0`), the opposite
direction of the claim; consequently the working list always has a
non-negative sign sum (clockwise under the spec's stated screen convention)
when the ear-clipping convexity test `cross > 0` is applied. -/
theorem c6_amended_reversal_iff_negative_sum (pts : List Pt) :
    (computeAreaSign pts < 0 → normalizeWinding pts = pts.reverse) ∧
      (0 ≤ computeAreaSign pts → normalizeWinding pts = pts) ∧
      0 ≤ computeAreaSign (normalizeWinding pts) := by
  refine ⟨fun h => if_pos h, fun h => if_neg (not_lt.mpr h), ?_⟩
  by_cases h : computeAreaSign pts < 0
  · rw [normalizeWinding, if_pos h, computeAreaSign_reverse]
    linarith
  · rw [normalizeWinding, if_neg h]
    exact not_lt.mp h

/-- A clockwise triangle under the source's sign convention (negative
shoelace sum). -/
def triNegSum : List Pt := [⟨0, 0⟩, ⟨0, 4⟩, ⟨4, 0⟩]

/-- Witness for the amended C6 statement at a concrete negative-sum input. -/
theorem c6_amended_reversal_iff_negative_sum_witness :
    computeAreaSign triNegSum < 0 ∧ normalizeWinding triNegSum = triNegSum.reverse :=
  ⟨by decide, (c6_amended_reversal_iff_negative_sum triNegSum).1 (by decide)⟩

/-- C7: the segment-intersection helper returns `none` whenever the absolute
determinant is below `1e-9`, and any returned intersection has both Cramer
parameters strictly inside `(eps, 1-eps)`; the returned pair is the point at
parameter `t` on `p1p2` together with `t` itself. -/
theorem c7_intersection_epsilon_guards (p1 p2 p3 p4 : Pt) :
    (|segDet p1 p2 p3 p4| < segEps → getLineSegmentIntersection p1 p2 p3 p4 = none) ∧
      (∀ pt t, getLineSegmentIntersection p1 p2 p3 p4 = some (pt, t) →
        segEps < t ∧ t < 1 - segEps ∧
          segEps < segU p1 p2 p3 p4 ∧ segU p1 p2 p3 p4 < 1 - segEps ∧
          t = segT p1 p2 p3 p4 ∧
          pt = ⟨p1.x + t * (p2.x - p1.x), p1.y + t * (p2.y - p1.y)⟩) := by
  constructor
  · intro h
    unfold getLineSegmentIntersection
    rw [if_pos h]
  · intro pt t h
    unfold getLineSegmentIntersection at h
    by_cases hd : |segDet p1 p2 p3 p4| < segEps
    · rw [if_pos hd] at h
      exact absurd h (by simp)
    · rw [if_neg hd] at h
      by_cases hc : segT p1 p2 p3 p4 > segEps ∧ segT p1 p2 p3 p4 < 1 - segEps ∧
          segU p1 p2 p3 p4 > segEps ∧ segU p1 p2 p3 p4 < 1 - segEps
      · rw [if_pos hc] at h
        obtain ⟨hpt, ht⟩ := Prod.mk.injEq .. ▸ (Option.some.injEq .. ▸ h)
        subst ht
        exact ⟨hc.1, hc.2.1, hc.2.2.1, hc.2.2.2, rfl, hpt.symm⟩
      · rw [if_neg hc] at h
        exact absurd h (by simp)

/-- Witness for C7: a genuine crossing (`t = u = 1/2`) and a parallel pair. -/
theorem c7_intersection_epsilon_guards_witness :
    (getLineSegmentIntersection ⟨0, 0⟩ ⟨2, 2⟩ ⟨0, 2⟩ ⟨2, 0⟩ = some (⟨1, 1⟩, 1 / 2) ∧
      segEps < (1 : ℚ) / 2 ∧ ((1 : ℚ) / 2) < 1 - segEps) ∧
      getLineSegmentIntersection ⟨0, 0⟩ ⟨1, 0⟩ ⟨0, 1⟩ ⟨1, 1⟩ = none := by
  constructor
  · have h := (c7_intersection_epsilon_guards ⟨0, 0⟩ ⟨2, 2⟩ ⟨0, 2⟩ ⟨2, 0⟩).2 ⟨1, 1⟩ (1 / 2)
      (by decide)
    exact ⟨by decide, h.1, h.2.1⟩
  · exact (c7_intersection_epsilon_guards ⟨0, 0⟩ ⟨1, 0⟩ ⟨0, 1⟩ ⟨1, 1⟩).1 (by decide)

/-! ## C4: what `isSimplePolygon` rejects -/

/-- Claim-side predicate, following the spec's words: some edge of the
implicitly closed polygon has identical endpoints (a repeated consecutive
vertex / zero-length edge). -/
def hasZeroLengthEdge (poly : List Pt) : Bool :=
  (List.range poly.length).any fun i =>
    poly.getD i ⟨0, 0⟩ = poly.getD ((i + 1) % poly.length) ⟨0, 0⟩

/-- Claim-side predicate, following the spec's words: two non-adjacent edges
of the polygon intersect in the sense of `segmentsIntersect`. -/
def hasNonAdjacentCrossing (poly : List Pt) : Bool :=
  let n := poly.length
  (List.range n).any fun i =>
    (List.range n).any fun j =>
      if i = j ∨ j = (i + 1) % n ∨ i = (j + 1) % n then false
      else
        segmentsIntersect (poly.getD i ⟨0, 0⟩) (poly.getD ((i + 1) % n) ⟨0, 0⟩)
          (poly.getD j ⟨0, 0⟩) (poly.getD ((j + 1) % n) ⟨0, 0⟩)

/-- A 3-vertex polygon with a repeated consecutive vertex. -/
def degenerateTri : List Pt := [⟨0, 0⟩, ⟨0, 0⟩, ⟨1, 1⟩]

/-- C4 counterexample: the claim quantifies over polygons of any vertex
count, but `isSimplePolygon` returns `true` unconditionally for three
vertices, so this zero-length-edge triangle is accepted. -/
theorem c4_counterexample_zero_edge_triangle_accepted :
    hasZeroLengthEdge degenerateTri = true ∧ degenerateTri.length = 3 ∧
      isSimplePolygon degenerateTri = true := by decide

/-- C4 amended: restricted to polygons with at least four vertices (below
that the source returns `true` without any check), `isSimplePolygon` rejects
every polygon with a zero-length edge and every polygon with two
non-adjacent crossing edges. -/
theorem c4_amended_rejects_zero_edges_and_crossings (poly : List Pt)
    (h4 : 4 ≤ poly.length)
    (h : hasZeroLengthEdge poly = true ∨ hasNonAdjacentCrossing poly = true) :
    isSimplePolygon poly = false := by
  have hn3 : ¬poly.length < 3 := by omega
  have hne3 : ¬poly.length = 3 := by omega
  rw [isSimplePolygon, if_neg hn3, if_neg hne3, List.all_eq_false]
  rcases h with h | h
  · rw [hasZeroLengthEdge, List.any_eq_true] at h
    obtain ⟨i, hi, heq⟩ := h
    have heq' := of_decide_eq_true heq
    refine ⟨i, hi, fun habs => ?_⟩
    rw [edgeOk, if_pos heq'] at habs
    exact Bool.false_ne_true habs
  · rw [hasNonAdjacentCrossing, List.any_eq_true] at h
    obtain ⟨i, hi, hj⟩ := h
    rw [List.any_eq_true] at hj
    obtain ⟨j, hjmem, hpair⟩ := hj
    by_cases hskip : i = j ∨ j = (i + 1) % poly.length ∨ i = (j + 1) % poly.length
    · rw [if_pos hskip] at hpair
      exact absurd hpair Bool.false_ne_true
    · rw [if_neg hskip] at hpair
      refine ⟨i, hi, fun habs => ?_⟩
      rw [edgeOk] at habs
      by_cases hz1 : poly.getD i ⟨0, 0⟩ = poly.getD ((i + 1) % poly.length) ⟨0, 0⟩
      · rw [if_pos hz1] at habs
        exact Bool.false_ne_true habs
      · rw [if_neg hz1] at habs
        have hpj := List.all_eq_true.mp habs j hjmem
        rw [edgePairOk] at hpj
        by_cases hz2 : poly.getD j ⟨0, 0⟩ = poly.getD ((j + 1) % poly.length) ⟨0, 0⟩
        · rw [if_pos hz2] at hpj
          exact Bool.false_ne_true hpj
        · rw [if_neg hz2, if_neg hskip] at hpj
          rw [hpair] at hpj
          exact Bool.false_ne_true hpj

/-- A self-crossing quadrilateral (bow-tie). -/
def bowtie : List Pt := [⟨0, 0⟩, ⟨2, 2⟩, ⟨2, 0⟩, ⟨0, 2⟩]

/-- Witness for the amended C4 statement: the bow-tie quadrilateral has two
non-adjacent crossing edges and is rejected. -/
theorem c4_amended_rejects_zero_edges_and_crossings_witness :
    hasNonAdjacentCrossing bowtie = true ∧ isSimplePolygon bowtie = false :=
  ⟨by decide, c4_amended_rejects_zero_edges_and_crossings bowtie (by decide)
    (Or.inr (by decide))⟩

/-! ## C9: the dispatch of `DrawingWidget::performCalculation` -/

/-- The `Mode` enumeration of the widget. -/
inductive Mode where
  | IDLE
  | ADD_POINTS_CONVEX_HULL
  | DRAW_POLYGON
  | DRAW_POLYGON_A
  | DRAW_POLYGON_B
deriving DecidableEq

/-- The algorithm bodies `performCalculation` can dispatch to. -/
inductive CalcCall where
  | convexHullAndrew
  | convexHullGraham
  | triangulation
  | polygonArea
  | intersectionAndUnion
deriving DecidableEq

/-- The widget fields `performCalculation` reads. -/
structure WidgetState where
  currentMode : Mode
  taskToPerform : String
  convexHullAlgorithm : String
  polygonVertices : List Pt
  polygonB : List Pt

/-- The dispatch structure of `DrawingWidget::performCalculation`: which
algorithm body the call reaches (`none` = only a message/early return).  The
branch guarded by `currentMode == DRAW_POLYGON_B` is nested, as in the
source, inside the branch that already required
`currentMode == DRAW_POLYGON`. -/
def performCalculation (st : WidgetState) : Option CalcCall :=
  if st.currentMode = Mode.ADD_POINTS_CONVEX_HULL then
    if st.convexHullAlgorithm = "Andrew" then some .convexHullAndrew
    else if st.convexHullAlgorithm = "Graham" then some .convexHullGraham
    else none
  else if st.currentMode = Mode.DRAW_POLYGON then
    if st.polygonVertices.length < 3 then none
    else if ¬isSimplePolygon st.polygonVertices then none
    else if st.taskToPerform = "triangulate" then some .triangulation
    else if st.taskToPerform = "area" then some .polygonArea
    else if st.currentMode = Mode.DRAW_POLYGON_B ∧ 3 ≤ st.polygonB.length then
      some .intersectionAndUnion
    else none
  else none

/-- C9: from every widget state, `performCalculation` never reaches
`calculateIntersectionAndUnion`: its guard needs `currentMode` to be both
`DRAW_POLYGON` (outer branch) and `DRAW_POLYGON_B` (inner condition). -/
theorem c9_performCalculation_never_boolean_op (st : WidgetState) :
    performCalculation st ≠ some CalcCall.intersectionAndUnion := by
  unfold performCalculation
  split_ifs with h1 h2 h3 h4 h5 h6 h7 h8 <;> simp_all

/-! ## The Weiler–Atherton engine (`calculateBooleanOp_WeilerAtherton`)

`std::list` iterators are stable references to nodes; the embedding gives
every node an identity `nid` and models an iterator as the `nid` of the node
it points to (`none` = `end()`). -/

/-- The `VertexNode` of the source, plus the `nid` iterator identity. -/
structure WNode where
  pt : Pt
  isInter : Bool
  neighborId : Nat
  entering : Bool
  processed : Bool
  alpha : ℚ
  nid : Nat
deriving DecidableEq

/-- Dereference an iterator: the node carrying `nid = i`. -/
def wlookup (l : List WNode) (i : Nat) : Option WNode :=
  match l with
  | [] => none
  | nd :: rest => if nd.nid = i then some nd else wlookup rest i

/-- `std::next`: the iterator one past the node `i` (`none` = `end()`). -/
def wnextId (l : List WNode) (i : Nat) : Option Nat :=
  match l with
  | [] => none
  | nd :: rest => if nd.nid = i then rest.head?.map (·.nid) else wnextId rest i

/-- `begin()` as a node identity. -/
def wheadId (l : List WNode) : Option Nat :=
  l.head?.map (·.nid)

/-- `std::list::insert(it, node)`: insert before the node `target`
(appending when the target is absent, which never happens in a run). -/
def insertBeforeId (l : List WNode) (target : Nat) (node : WNode) : List WNode :=
  match l with
  | [] => [node]
  | nd :: rest =>
    if nd.nid = target then node :: nd :: rest
    else nd :: insertBeforeId rest target node

/-- In-place field update through an iterator. -/
def markProcessed (l : List WNode) (i : Nat) : List WNode :=
  l.map fun nd => if nd.nid = i then { nd with processed := true } else nd

/-- `for (p : poly) list.push_back({p})`, assigning identities from `base`. -/
def buildNodes (pts : List Pt) (base : Nat) : List WNode :=
  match pts with
  | [] => []
  | p :: rest => ⟨p, false, 0, false, false, 0, base⟩ :: buildNodes rest (base + 1)

/-- Inner loop of the intersection-finding phase: scan the edges of list `B`
(from iterator `itB`) against the fixed `A` edge `a1 → a2`; on a strict
intersection, fresh paired nodes are spliced before `next_itA` and
`next_itB`, and the scan continues after the iterator `itB` in the updated
list (which visits the just-inserted node, whose touching sub-segment the
`eps` guards of `getLineSegmentIntersection` reject). -/
def findIntersB (fuel : Nat) (a1 a2 : Pt) (nextAId : Nat) (itB : Option Nat)
    (stA stB : List WNode) (fresh : Nat) : Option (List WNode × List WNode × Nat) :=
  match fuel with
  | 0 => none
  | fuel + 1 =>
    match itB with
    | none => some (stA, stB, fresh)
    | some bId =>
      match wlookup stB bId with
      | none => some (stA, stB, fresh)
      | some bNode =>
        let nextBId := (wnextId stB bId).getD ((wheadId stB).getD 0)
        match wlookup stB nextBId with
        | none => some (stA, stB, fresh)
        | some bNext =>
          match getLineSegmentIntersection a1 a2 bNode.pt bNext.pt with
          | none => findIntersB fuel a1 a2 nextAId (wnextId stB bId) stA stB fresh
          | some (p, alpha) =>
            let c := crossProduct ⟨0, 0⟩ ⟨a2.x - a1.x, a2.y - a1.y⟩
              ⟨bNext.pt.x - bNode.pt.x, bNext.pt.y - bNode.pt.y⟩
            let nodeA : WNode :=
              ⟨p, true, fresh + 1, decide (c > 0), false, alpha, fresh⟩
            let nodeB : WNode :=
              ⟨p, true, fresh, decide (c < 0), false, 0, fresh + 1⟩
            let stA' := insertBeforeId stA nextAId nodeA
            let stB' := insertBeforeId stB nextBId nodeB
            findIntersB fuel a1 a2 nextAId (wnextId stB' bId) stA' stB' (fresh + 2)

/-- Outer loop of the intersection-finding phase over list `A`; `next_itA`
is fixed per outer step before the inner scan, as in the source. -/
def findIntersA (fuel : Nat) (itA : Option Nat) (stA stB : List WNode) (fresh : Nat) :
    Option (List WNode × List WNode × Nat) :=
  match fuel with
  | 0 => none
  | fuel + 1 =>
    match itA with
    | none => some (stA, stB, fresh)
    | some aId =>
      match wlookup stA aId with
      | none => some (stA, stB, fresh)
      | some aNode =>
        let nextAId := (wnextId stA aId).getD ((wheadId stA).getD 0)
        match wlookup stA nextAId with
        | none => some (stA, stB, fresh)
        | some aNext =>
          match findIntersB fuel aNode.pt aNext.pt nextAId (wheadId stB) stA stB fresh with
          | none => none
          | some (stA', stB', fresh') => findIntersA fuel (wnextId stA' aId) stA' stB' fresh'

/-- The stitching walk (`do … while`): `budget` models the remaining
`loop_guard` allowance (`max_loops` minus executed bodies); every body marks
the visited node (and its pair) processed, appends the point, switches lists
at an intersection node when the operation's switch rule fires, then
advances with wrap-around; the walk stops on returning to the start node
or, for an intersection start, on reaching its paired node. -/
def walkLoop (budget : Nat) (isUnion : Bool) (startId : Nat) (startIsInter : Bool)
    (startNeighbor : Nat) (curInA : Bool) (curId : Nat) (lA lB : List WNode)
    (acc : List Pt) : List WNode × List WNode × List Pt :=
  match budget with
  | 0 => (lA, lB, acc)
  | budget + 1 =>
    match wlookup (if curInA then lA else lB) curId with
    | none => (lA, lB, acc)
    | some cur =>
      let lA1 := if curInA then markProcessed lA curId
        else if cur.isInter then markProcessed lA cur.neighborId else lA
      let lB1 := if curInA then (if cur.isInter then markProcessed lB cur.neighborId else lB)
        else markProcessed lB curId
      let acc1 := acc ++ [cur.pt]
      let jump : Bool := cur.isInter && (isUnion != cur.entering)
      let nextInA := if jump then !curInA else curInA
      let fromId := if jump then cur.neighborId else curId
      let nlist := if nextInA then lA1 else lB1
      let nextId := (wnextId nlist fromId).getD ((wheadId nlist).getD 0)
      if nextId = startId ∨ (startIsInter ∧ nextId = startNeighbor) then (lA1, lB1, acc1)
      else walkLoop budget isUnion startId startIsInter startNeighbor nextInA nextId lA1 lB1 acc1

/-- The contour-extraction loop over the positions of list `A`: start a walk
at every unprocessed intersection node whose entering flag matches the
requested operation's start condition, keeping contours longer than two
points. -/
def extractLoop (idxs : List Nat) (isUnion : Bool) (lA lB : List WNode)
    (res : List (List Pt)) : List WNode × List WNode × List (List Pt) :=
  match idxs with
  | [] => (lA, lB, res)
  | idx :: rest =>
    match lA[idx]? with
    | none => (lA, lB, res)
    | some nd =>
      if ¬nd.isInter ∨ nd.processed then extractLoop rest isUnion lA lB res
      else if isUnion = nd.entering then extractLoop rest isUnion lA lB res
      else
        let w := walkLoop (lA.length + lB.length + 1) isUnion nd.nid nd.isInter
          nd.neighborId true nd.nid lA lB []
        extractLoop rest isUnion w.1 w.2.1
          (if 2 < w.2.2.length then res ++ [w.2.2] else res)

/-- The `BooleanOpType` enumeration. -/
inductive BooleanOpType where
  | Intersection
  | Union
deriving DecidableEq

/-- The winding normalisation of the Weiler–Atherton entry: reverse a
polygon whose shoelace sign is positive. -/
def normalizeCCW (pts : List Pt) : List Pt :=
  if computeAreaSign pts > 0 then pts.reverse else pts

/-- `DrawingWidget::calculateBooleanOp_WeilerAtherton`, fuelled (the fuel
only bounds the intersection-finding scans; the stitching walk is bounded
by the source's own `loop_guard`).  Returns the final
`weilerResultPolygons` contents. -/
def calculateBooleanOpWA (fuel : Nat) (opType : BooleanOpType)
    (polygonA polygonB : List Pt) : Option (List (List Pt)) :=
  if polygonA.length < 3 ∨ polygonB.length < 3 then some []
  else
    match findIntersA fuel (wheadId (buildNodes (normalizeCCW polygonA) 0))
        (buildNodes (normalizeCCW polygonA) 0)
        (buildNodes (normalizeCCW polygonB) (normalizeCCW polygonA).length)
        ((normalizeCCW polygonA).length + (normalizeCCW polygonB).length) with
    | none => none
    | some (lA, lB, _) =>
      match extractLoop (List.range lA.length) (opType = BooleanOpType.Union) lA lB [] with
      | (_, _, res) =>
        if res.isEmpty ∧ ¬(normalizeCCW polygonA).isEmpty ∧ ¬(normalizeCCW polygonB).isEmpty then
          if opType = BooleanOpType.Intersection then
            if isPointInsidePolygon ((normalizeCCW polygonA).getD 0 ⟨0, 0⟩)
                (normalizeCCW polygonB) then some [normalizeCCW polygonA]
            else if isPointInsidePolygon ((normalizeCCW polygonB).getD 0 ⟨0, 0⟩)
                (normalizeCCW polygonA) then some [normalizeCCW polygonB]
            else some []
          else
            if isPointInsidePolygon ((normalizeCCW polygonA).getD 0 ⟨0, 0⟩)
                (normalizeCCW polygonB) then some [normalizeCCW polygonB]
            else if isPointInsidePolygon ((normalizeCCW polygonB).getD 0 ⟨0, 0⟩)
                (normalizeCCW polygonA) then some [normalizeCCW polygonA]
            else some [normalizeCCW polygonA, normalizeCCW polygonB]
        else some res

/-- The widget fields touched or read by the Weiler–Atherton slot. -/
structure BoolOpState where
  polygonA : List Pt
  polygonB : List Pt
  weilerResultPolygons : List (List Pt)
deriving DecidableEq

/-- The call as a state transformer: the source clears and refills only the
member `weilerResultPolygons`, reading `polygonA`/`polygonB` into local
copies (`QVector` deep-copies on write, and only the copies are reversed
and spliced). -/
def weilerAthertonStep (fuel : Nat) (opType : BooleanOpType) (st : BoolOpState) :
    Option BoolOpState :=
  (calculateBooleanOpWA fuel opType st.polygonA st.polygonB).map
    fun r => { st with weilerResultPolygons := r }

/-! ### Structure of the freshly built node lists -/

theorem buildNodes_length (pts : List Pt) (b : Nat) :
    (buildNodes pts b).length = pts.length := by
  induction pts generalizing b with
  | nil => rfl
  | cons p rest ih => simp [buildNodes, ih]

theorem buildNodes_isInter (pts : List Pt) (b : Nat) :
    ∀ nd ∈ buildNodes pts b, nd.isInter = false := by
  induction pts generalizing b with
  | nil => intro nd h; cases h
  | cons p rest ih =>
    intro nd h
    rw [buildNodes] at h
    rcases List.mem_cons.mp h with h | h
    · rw [h]
    · exact ih (b + 1) nd h

theorem wlookup_buildNodes (pts : List Pt) (b k : Nat) (hk : k < pts.length) :
    wlookup (buildNodes pts b) (b + k) =
      some ⟨pts.getD k ⟨0, 0⟩, false, 0, false, false, 0, b + k⟩ := by
  induction pts generalizing b k with
  | nil => simp at hk
  | cons p rest ih =>
    rw [buildNodes, wlookup]
    rcases Nat.eq_zero_or_pos k with h0 | hpos
    · subst h0
      simp
    · rw [if_neg (by simp; omega)]
      have ih' := ih (b + 1) (k - 1) (by simp at hk; omega)
      have e : b + 1 + (k - 1) = b + k := by omega
      rw [e] at ih'
      rw [ih']
      obtain ⟨m, rfl⟩ := Nat.exists_eq_succ_of_ne_zero (by omega : k ≠ 0)
      simp [List.getD_cons_succ]

theorem wheadId_buildNodes (pts : List Pt) (b : Nat) (h : 0 < pts.length) :
    wheadId (buildNodes pts b) = some b := by
  cases pts with
  | nil => simp at h
  | cons p rest => rfl

theorem wnextId_buildNodes (pts : List Pt) (b k : Nat) (hk : k < pts.length) :
    wnextId (buildNodes pts b) (b + k) =
      if k + 1 < pts.length then some (b + (k + 1)) else none := by
  induction pts generalizing b k with
  | nil => simp at hk
  | cons p rest ih =>
    rw [buildNodes, wnextId]
    rcases Nat.eq_zero_or_pos k with h0 | hpos
    · subst h0
      rw [if_pos (by simp)]
      cases rest with
      | nil => simp [buildNodes]
      | cons q rest2 => simp [buildNodes, List.length_cons]
    · rw [if_neg (by simp; omega)]
      have ih' := ih (b + 1) (k - 1) (by simp at hk; omega)
      have e : b + 1 + (k - 1) = b + k := by omega
      rw [e] at ih'
      rw [ih']
      have e2 : k - 1 + 1 = k := by omega
      rw [e2]
      simp only [List.length_cons]
      by_cases hlt : k < rest.length
      · rw [if_pos hlt, if_pos (by omega)]
        congr 1
        omega
      · rw [if_neg hlt, if_neg (by omega)]

/-! ### The no-intersection run of the Weiler–Atherton phases -/

theorem findIntersB_no_hits (a1 a2 : Pt) (nextAId : Nat) (stA : List WNode)
    (ptsB : List Pt) (bB : Nat)
    (hB : ∀ j, j < ptsB.length →
      getLineSegmentIntersection a1 a2 (ptsB.getD j ⟨0, 0⟩)
        (ptsB.getD ((j + 1) % ptsB.length) ⟨0, 0⟩) = none) :
    ∀ fuel k fresh, ptsB.length - k < fuel →
      findIntersB fuel a1 a2 nextAId
        (if k < ptsB.length then some (bB + k) else none)
        stA (buildNodes ptsB bB) fresh = some (stA, buildNodes ptsB bB, fresh) := by
  intro fuel
  induction fuel with
  | zero => intro k fresh h; omega
  | succ f ih =>
    intro k fresh h
    by_cases hk : k < ptsB.length
    · have hn : 0 < ptsB.length := by omega
      rw [if_pos hk]
      have hlook := wlookup_buildNodes ptsB bB k hk
      have hm : (k + 1) % ptsB.length < ptsB.length := Nat.mod_lt _ hn
      have hlook2 := wlookup_buildNodes ptsB bB ((k + 1) % ptsB.length) hm
      have hnext := wnextId_buildNodes ptsB bB k hk
      have hhead := wheadId_buildNodes ptsB bB hn
      have hnextval : (wnextId (buildNodes ptsB bB) (bB + k)).getD
          ((wheadId (buildNodes ptsB bB)).getD 0) = bB + (k + 1) % ptsB.length := by
        rw [hnext, hhead]
        by_cases h2 : k + 1 < ptsB.length
        · rw [if_pos h2]
          simp [Nat.mod_eq_of_lt h2]
        · rw [if_neg h2]
          have h3 : (k + 1) % ptsB.length = 0 := by
            have h4 : k + 1 = ptsB.length := by omega
            rw [h4, Nat.mod_self]
          simp [h3]
      simp only [findIntersB, hlook, hnextval, hlook2, hB k hk]
      rw [hnext]
      exact ih (k + 1) fresh (by omega)
    · rw [if_neg hk]
      simp [findIntersB]

theorem findIntersA_no_hits (ptsA ptsB : List Pt) (bA bB : Nat)
    (hno : ∀ i, i < ptsA.length → ∀ j, j < ptsB.length →
      getLineSegmentIntersection (ptsA.getD i ⟨0, 0⟩)
        (ptsA.getD ((i + 1) % ptsA.length) ⟨0, 0⟩)
        (ptsB.getD j ⟨0, 0⟩) (ptsB.getD ((j + 1) % ptsB.length) ⟨0, 0⟩) = none) :
    ∀ fuel i fresh, ptsA.length - i + ptsB.length < fuel →
      findIntersA fuel (if i < ptsA.length then some (bA + i) else none)
        (buildNodes ptsA bA) (buildNodes ptsB bB) fresh
        = some (buildNodes ptsA bA, buildNodes ptsB bB, fresh) := by
  intro fuel
  induction fuel with
  | zero => intro i fresh h; omega
  | succ f ih =>
    intro i fresh h
    by_cases hi : i < ptsA.length
    · have hn : 0 < ptsA.length := by omega
      rw [if_pos hi]
      have hlook := wlookup_buildNodes ptsA bA i hi
      have hm : (i + 1) % ptsA.length < ptsA.length := Nat.mod_lt _ hn
      have hlook2 := wlookup_buildNodes ptsA bA ((i + 1) % ptsA.length) hm
      have hnext := wnextId_buildNodes ptsA bA i hi
      have hhead := wheadId_buildNodes ptsA bA hn
      have hnextval : (wnextId (buildNodes ptsA bA) (bA + i)).getD
          ((wheadId (buildNodes ptsA bA)).getD 0) = bA + (i + 1) % ptsA.length := by
        rw [hnext, hhead]
        by_cases h2 : i + 1 < ptsA.length
        · rw [if_pos h2]
          simp [Nat.mod_eq_of_lt h2]
        · rw [if_neg h2]
          have h3 : (i + 1) % ptsA.length = 0 := by
            have h4 : i + 1 = ptsA.length := by omega
            rw [h4, Nat.mod_self]
          simp [h3]
      have hheadB : wheadId (buildNodes ptsB bB) =
          (if 0 < ptsB.length then some (bB + 0) else none) := by
        cases ptsB with
        | nil => rfl
        | cons q rest => simp [buildNodes, wheadId]
      have hinner := findIntersB_no_hits (ptsA.getD i ⟨0, 0⟩)
        (ptsA.getD ((i + 1) % ptsA.length) ⟨0, 0⟩) (bA + (i + 1) % ptsA.length)
        (buildNodes ptsA bA) ptsB bB (fun j hj => hno i hi j hj) f 0 fresh (by omega)
      simp only [findIntersA, hlook, hnextval, hlook2, hheadB, hinner]
      rw [hnext]
      exact ih (i + 1) fresh (by omega)
    · rw [if_neg hi]
      simp [findIntersA]

theorem extractLoop_all_plain (isU : Bool) (lB : List WNode) :
    ∀ (idxs : List Nat) (lA : List WNode) (res : List (List Pt)),
      (∀ nd ∈ lA, nd.isInter = false) →
      extractLoop idxs isU lA lB res = (lA, lB, res) := by
  intro idxs
  induction idxs with
  | nil => intro lA res h; rfl
  | cons idx rest ih =>
    intro lA res h
    rw [extractLoop]
    cases hnd : lA[idx]? with
    | none => rfl
    | some nd =>
      have hplain : nd.isInter = false := h nd (List.getElem?_mem hnd)
      simp only [hplain, Bool.false_eq_true, not_false_eq_true, true_or, if_true]
      exact ih lA res h

theorem normalizeCCW_length (pts : List Pt) : (normalizeCCW pts).length = pts.length := by
  unfold normalizeCCW
  split
  · exact List.length_reverse pts
  · rfl

theorem mem_normalizeCCW (pts : List Pt) (p : Pt) : p ∈ normalizeCCW pts ↔ p ∈ pts := by
  unfold normalizeCCW
  split
  · exact List.mem_reverse
  · rfl

/-- When no pair of edges of the two normalised polygons intersects strictly,
the whole Weiler–Atherton run reduces to the containment fallback table. -/
theorem calcBoolWA_no_hits (opType : BooleanOpType) (polygonA polygonB : List Pt)
    (fuel : Nat) (hA : 3 ≤ polygonA.length) (hB : 3 ≤ polygonB.length)
    (hfuel : polygonA.length + polygonB.length < fuel)
    (hno : ∀ i, i < (normalizeCCW polygonA).length →
      ∀ j, j < (normalizeCCW polygonB).length →
      getLineSegmentIntersection ((normalizeCCW polygonA).getD i ⟨0, 0⟩)
        ((normalizeCCW polygonA).getD ((i + 1) % (normalizeCCW polygonA).length) ⟨0, 0⟩)
        ((normalizeCCW polygonB).getD j ⟨0, 0⟩)
        ((normalizeCCW polygonB).getD ((j + 1) % (normalizeCCW polygonB).length) ⟨0, 0⟩)
          = none) :
    calculateBooleanOpWA fuel opType polygonA polygonB =
      (if opType = BooleanOpType.Intersection then
        (if isPointInsidePolygon ((normalizeCCW polygonA).getD 0 ⟨0, 0⟩)
            (normalizeCCW polygonB) then some [normalizeCCW polygonA]
         else if isPointInsidePolygon ((normalizeCCW polygonB).getD 0 ⟨0, 0⟩)
            (normalizeCCW polygonA) then some [normalizeCCW polygonB]
         else some ([] : List (List Pt)))
       else
        (if isPointInsidePolygon ((normalizeCCW polygonA).getD 0 ⟨0, 0⟩)
            (normalizeCCW polygonB) then some [normalizeCCW polygonB]
         else if isPointInsidePolygon ((normalizeCCW polygonB).getD 0 ⟨0, 0⟩)
            (normalizeCCW polygonA) then some [normalizeCCW polygonA]
         else some [normalizeCCW polygonA, normalizeCCW polygonB])) := by
  have hlA : (normalizeCCW polygonA).length = polygonA.length := normalizeCCW_length _
  have hlB : (normalizeCCW polygonB).length = polygonB.length := normalizeCCW_length _
  have hheadA : wheadId (buildNodes (normalizeCCW polygonA) 0) =
      (if 0 < (normalizeCCW polygonA).length then some (0 + 0) else none) := by
    cases hcase : normalizeCCW polygonA with
    | nil => rfl
    | cons q rest => simp [buildNodes, wheadId]
  have houter := findIntersA_no_hits (normalizeCCW polygonA) (normalizeCCW polygonB)
    0 (normalizeCCW polygonA).length hno fuel 0
    ((normalizeCCW polygonA).length + (normalizeCCW polygonB).length) (by omega)
  have hplainA : ∀ nd ∈ buildNodes (normalizeCCW polygonA) 0, nd.isInter = false :=
    buildNodes_isInter _ _
  have hskip := extractLoop_all_plain (decide (opType = BooleanOpType.Union))
    (buildNodes (normalizeCCW polygonB) (normalizeCCW polygonA).length)
    (List.range (buildNodes (normalizeCCW polygonA) 0).length)
    (buildNodes (normalizeCCW polygonA) 0) [] hplainA
  have hAne : ¬(normalizeCCW polygonA).isEmpty = true := by
    intro hemp
    cases hcase : normalizeCCW polygonA with
    | nil => rw [hcase] at hlA; simp at hlA; omega
    | cons q rest => rw [hcase] at hemp; simp [List.isEmpty] at hemp
  have hBne : ¬(normalizeCCW polygonB).isEmpty = true := by
    intro hemp
    cases hcase : normalizeCCW polygonB with
    | nil => rw [hcase] at hlB; simp at hlB; omega
    | cons q rest => rw [hcase] at hemp; simp [List.isEmpty] at hemp
  unfold calculateBooleanOpWA
  rw [if_neg (by omega : ¬(polygonA.length < 3 ∨ polygonB.length < 3))]
  rw [hheadA, houter]
  simp only [hskip]
  rw [if_pos ⟨rfl, hAne, hBne⟩]

/-! ### Separated polygons: no strict intersections, no containment -/

theorem getD_mem (l : List Pt) (i : Nat) (d : Pt) (h : i < l.length) : l.getD i d ∈ l := by
  rw [List.getD_eq_getElem l d h]
  exact List.getElem_mem h

/-- Two segments whose `x`-ranges are strictly separated are never reported
as intersecting: every returned intersection lies on both closed segments. -/
theorem getLineSegmentIntersection_none_of_left (a1 a2 b1 b2 : Pt)
    (h1 : b1.x < a1.x) (h2 : b1.x < a2.x) (h3 : b2.x < a1.x) (h4 : b2.x < a2.x) :
    getLineSegmentIntersection a1 a2 b1 b2 = none := by
  unfold getLineSegmentIntersection
  by_cases hd : |segDet a1 a2 b1 b2| < segEps
  · rw [if_pos hd]
  · rw [if_neg hd]
    by_cases hc : segT a1 a2 b1 b2 > segEps ∧ segT a1 a2 b1 b2 < 1 - segEps ∧
        segU a1 a2 b1 b2 > segEps ∧ segU a1 a2 b1 b2 < 1 - segEps
    · exfalso
      have hdet : segDet a1 a2 b1 b2 ≠ 0 := by
        intro h0
        apply hd
        rw [h0]
        norm_num [segEps]
      obtain ⟨ht1, ht2, hu1, hu2⟩ := hc
      have heps : (0 : ℚ) < segEps := by norm_num [segEps]
      have hepslt : segEps < (1 : ℚ) := by norm_num [segEps]
      have ht0 : 0 < segT a1 a2 b1 b2 := lt_trans heps ht1
      have ht3 : segT a1 a2 b1 b2 < 1 := by linarith
      have hu0 : 0 < segU a1 a2 b1 b2 := lt_trans heps hu1
      have hu3 : segU a1 a2 b1 b2 < 1 := by linarith
      have hx : a1.x + segT a1 a2 b1 b2 * (a2.x - a1.x)
          = b1.x + segU a1 a2 b1 b2 * (b2.x - b1.x) := by
        unfold segT segU
        unfold segDet at hdet ⊢
        field_simp
        ring
      nlinarith [mul_pos (mul_pos (by linarith : (0:ℚ) < 1 - segT a1 a2 b1 b2)
          (by linarith : (0:ℚ) < 1 - segU a1 a2 b1 b2)) (by linarith : (0:ℚ) < a1.x - b1.x),
        mul_pos (mul_pos (by linarith : (0:ℚ) < 1 - segT a1 a2 b1 b2) hu0)
          (by linarith : (0:ℚ) < a1.x - b2.x),
        mul_pos (mul_pos ht0 (by linarith : (0:ℚ) < 1 - segU a1 a2 b1 b2))
          (by linarith : (0:ℚ) < a2.x - b1.x),
        mul_pos (mul_pos ht0 hu0) (by linarith : (0:ℚ) < a2.x - b2.x)]
    · rw [if_neg hc]

theorem foldl_const {α β : Type _} (f : β → α → β) (l : List α) (b : β)
    (h : ∀ a ∈ l, ∀ x, f x a = x) : l.foldl f b = b := by
  induction l generalizing b with
  | nil => rfl
  | cons a rest ih =>
    rw [List.foldl_cons, h a (List.mem_cons_self a rest)]
    exact ih b fun a' ha' x => h a' (List.mem_cons_of_mem _ ha') x

/-- The ray-cast crossing abscissa of an edge that straddles `q.y` never
exceeds the larger endpoint abscissa. -/
theorem xIntersect_le_max (pv pj q : Pt) (hstr : (pv.y > q.y) ≠ (pj.y > q.y)) :
    (pj.x - pv.x) * (q.y - pv.y) / (pj.y - pv.y) + pv.x ≤ max pv.x pj.x := by
  have hd : pj.y - pv.y ≠ 0 := by
    intro h0
    apply hstr
    have he : pj.y = pv.y := by linarith
    rw [he]
  set r := (q.y - pv.y) / (pj.y - pv.y) with hr
  have hrd : r * (pj.y - pv.y) = q.y - pv.y := div_mul_cancel₀ _ hd
  have hbounds : 0 ≤ r ∧ r ≤ 1 := by
    by_cases hy1 : pv.y > q.y
    · have hy2 : ¬(pj.y > q.y) := fun hy2 => hstr (by simp [hy1, hy2])
      constructor
      · nlinarith
      · nlinarith
    · have hy2 : pj.y > q.y := by
        by_contra hy2
        exact hstr (by simp [hy1, hy2])
      constructor
      · nlinarith
      · nlinarith
  have hxint : (pj.x - pv.x) * (q.y - pv.y) / (pj.y - pv.y) = (pj.x - pv.x) * r := by
    rw [hr, mul_div_assoc]
  rw [hxint]
  rcases le_total pv.x pj.x with hx | hx
  · refine le_trans ?_ (le_max_right pv.x pj.x)
    nlinarith [mul_nonneg (sub_nonneg.mpr hx) (sub_nonneg.mpr hbounds.2)]
  · refine le_trans ?_ (le_max_left pv.x pj.x)
    nlinarith [mul_nonneg (sub_nonneg.mpr hx) hbounds.1]

/-- A point strictly to the right of every vertex is reported outside. -/
theorem isPointInsidePolygon_false_of_right (q : Pt) (poly : List Pt)
    (h : ∀ p ∈ poly, p.x < q.x) : isPointInsidePolygon q poly = false := by
  unfold isPointInsidePolygon
  by_cases hn : poly.length < 3
  · rw [if_pos hn]
  · rw [if_neg hn]
    apply foldl_const
    intro i hi x
    have hilt : i < poly.length := List.mem_range.mp hi
    have hjlt : (if i = 0 then poly.length - 1 else i - 1) < poly.length := by
      split <;> omega
    by_cases hstr : ((poly.getD i ⟨0, 0⟩).y > q.y) ≠
        ((poly.getD (if i = 0 then poly.length - 1 else i - 1) ⟨0, 0⟩).y > q.y)
    · rw [if_pos hstr]
      have hpi := h _ (getD_mem poly i ⟨0, 0⟩ hilt)
      have hpj := h _ (getD_mem poly (if i = 0 then poly.length - 1 else i - 1) ⟨0, 0⟩ hjlt)
      have hle := xIntersect_le_max (poly.getD i ⟨0, 0⟩)
        (poly.getD (if i = 0 then poly.length - 1 else i - 1) ⟨0, 0⟩) q hstr
      rw [if_neg (by
        intro habs
        have := lt_of_lt_of_le habs hle
        rcases max_cases (poly.getD i ⟨0, 0⟩).x
            (poly.getD (if i = 0 then poly.length - 1 else i - 1) ⟨0, 0⟩).x with
          ⟨he, _⟩ | ⟨he, _⟩ <;> rw [he] at this <;> linarith)]
    · rw [if_neg hstr]

/-- A point strictly below every vertex is reported outside: no edge
straddles its horizontal ray. -/
theorem isPointInsidePolygon_false_of_below (q : Pt) (poly : List Pt)
    (h : ∀ p ∈ poly, q.y < p.y) : isPointInsidePolygon q poly = false := by
  unfold isPointInsidePolygon
  by_cases hn : poly.length < 3
  · rw [if_pos hn]
  · rw [if_neg hn]
    apply foldl_const
    intro i hi x
    have hilt : i < poly.length := List.mem_range.mp hi
    have hjlt : (if i = 0 then poly.length - 1 else i - 1) < poly.length := by
      split <;> omega
    have hpi := h _ (getD_mem poly i ⟨0, 0⟩ hilt)
    have hpj := h _ (getD_mem poly (if i = 0 then poly.length - 1 else i - 1) ⟨0, 0⟩ hjlt)
    rw [if_neg (by
      intro habs
      exact habs (propext (iff_of_true hpi hpj)))]

/-- C5: when the edges of the two (winding-normalised) operands have no
strict interior intersection, the Weiler–Atherton operation reduces to the
containment fallback on one sample vertex per polygon — intersection yields
A when A's sample is inside B, B when B's sample is inside A, else nothing;
union yields B, A, or both as two disjoint contours — and in particular two
strictly separated polygons give an empty intersection and a two-contour
union. -/
theorem c5_weiler_degenerate_fallback (polygonA polygonB : List Pt) (fuel : Nat)
    (hA : 3 ≤ polygonA.length) (hB : 3 ≤ polygonB.length)
    (hfuel : polygonA.length + polygonB.length < fuel) :
    ((∀ i, i < (normalizeCCW polygonA).length →
        ∀ j, j < (normalizeCCW polygonB).length →
        getLineSegmentIntersection ((normalizeCCW polygonA).getD i ⟨0, 0⟩)
          ((normalizeCCW polygonA).getD ((i + 1) % (normalizeCCW polygonA).length) ⟨0, 0⟩)
          ((normalizeCCW polygonB).getD j ⟨0, 0⟩)
          ((normalizeCCW polygonB).getD ((j + 1) % (normalizeCCW polygonB).length) ⟨0, 0⟩)
            = none) →
      calculateBooleanOpWA fuel BooleanOpType.Intersection polygonA polygonB =
        (if isPointInsidePolygon ((normalizeCCW polygonA).getD 0 ⟨0, 0⟩)
            (normalizeCCW polygonB) then some [normalizeCCW polygonA]
         else if isPointInsidePolygon ((normalizeCCW polygonB).getD 0 ⟨0, 0⟩)
            (normalizeCCW polygonA) then some [normalizeCCW polygonB]
         else some []) ∧
      calculateBooleanOpWA fuel BooleanOpType.Union polygonA polygonB =
        (if isPointInsidePolygon ((normalizeCCW polygonA).getD 0 ⟨0, 0⟩)
            (normalizeCCW polygonB) then some [normalizeCCW polygonB]
         else if isPointInsidePolygon ((normalizeCCW polygonB).getD 0 ⟨0, 0⟩)
            (normalizeCCW polygonA) then some [normalizeCCW polygonA]
         else some [normalizeCCW polygonA, normalizeCCW polygonB])) ∧
    ((∀ a ∈ polygonA, ∀ b ∈ polygonB, b.x < a.x ∧ b.y < a.y) →
      calculateBooleanOpWA fuel BooleanOpType.Intersection polygonA polygonB = some [] ∧
      calculateBooleanOpWA fuel BooleanOpType.Union polygonA polygonB =
        some [normalizeCCW polygonA, normalizeCCW polygonB]) := by
  have hlA : (normalizeCCW polygonA).length = polygonA.length := normalizeCCW_length _
  have hlB : (normalizeCCW polygonB).length = polygonB.length := normalizeCCW_length _
  constructor
  · intro hno
    constructor
    · rw [calcBoolWA_no_hits BooleanOpType.Intersection polygonA polygonB fuel hA hB hfuel hno]
      simp
    · rw [calcBoolWA_no_hits BooleanOpType.Union polygonA polygonB fuel hA hB hfuel hno]
      simp
  · intro hsep
    have hmemA : ∀ i, i < (normalizeCCW polygonA).length →
        (normalizeCCW polygonA).getD i ⟨0, 0⟩ ∈ polygonA := fun i hi =>
      (mem_normalizeCCW polygonA _).mp (getD_mem _ i ⟨0, 0⟩ hi)
    have hmemB : ∀ j, j < (normalizeCCW polygonB).length →
        (normalizeCCW polygonB).getD j ⟨0, 0⟩ ∈ polygonB := fun j hj =>
      (mem_normalizeCCW polygonB _).mp (getD_mem _ j ⟨0, 0⟩ hj)
    have hno : ∀ i, i < (normalizeCCW polygonA).length →
        ∀ j, j < (normalizeCCW polygonB).length →
        getLineSegmentIntersection ((normalizeCCW polygonA).getD i ⟨0, 0⟩)
          ((normalizeCCW polygonA).getD ((i + 1) % (normalizeCCW polygonA).length) ⟨0, 0⟩)
          ((normalizeCCW polygonB).getD j ⟨0, 0⟩)
          ((normalizeCCW polygonB).getD ((j + 1) % (normalizeCCW polygonB).length) ⟨0, 0⟩)
            = none := by
      intro i hi j hj
      have hi2 : (i + 1) % (normalizeCCW polygonA).length < (normalizeCCW polygonA).length :=
        Nat.mod_lt _ (by omega)
      have hj2 : (j + 1) % (normalizeCCW polygonB).length < (normalizeCCW polygonB).length :=
        Nat.mod_lt _ (by omega)
      exact getLineSegmentIntersection_none_of_left _ _ _ _
        (hsep _ (hmemA i hi) _ (hmemB j hj)).1
        (hsep _ (hmemA _ hi2) _ (hmemB j hj)).1
        (hsep _ (hmemA i hi) _ (hmemB _ hj2)).1
        (hsep _ (hmemA _ hi2) _ (hmemB _ hj2)).1
    have haInB : isPointInsidePolygon ((normalizeCCW polygonA).getD 0 ⟨0, 0⟩)
        (normalizeCCW polygonB) = false := by
      apply isPointInsidePolygon_false_of_right
      intro p hp
      exact (hsep _ (hmemA 0 (by omega)) _ ((mem_normalizeCCW polygonB p).mp hp)).1
    have hbInA : isPointInsidePolygon ((normalizeCCW polygonB).getD 0 ⟨0, 0⟩)
        (normalizeCCW polygonA) = false := by
      apply isPointInsidePolygon_false_of_below
      intro p hp
      exact (hsep _ ((mem_normalizeCCW polygonA p).mp hp) _ (hmemB 0 (by omega))).2
    constructor
    · rw [calcBoolWA_no_hits BooleanOpType.Intersection polygonA polygonB fuel hA hB hfuel hno]
      rw [if_pos rfl, if_neg (by rw [haInB]; exact Bool.false_ne_true),
        if_neg (by rw [hbInA]; exact Bool.false_ne_true)]
    · rw [calcBoolWA_no_hits BooleanOpType.Union polygonA polygonB fuel hA hB hfuel hno]
      rw [if_neg (by simp), if_neg (by rw [haInB]; exact Bool.false_ne_true),
        if_neg (by rw [hbInA]; exact Bool.false_ne_true)]

/-- Witness for C5 at two strictly separated concrete triangles: empty
intersection, two-contour union. -/
theorem c5_weiler_degenerate_fallback_witness :
    calculateBooleanOpWA 10 BooleanOpType.Intersection
        [⟨10, 10⟩, ⟨14, 10⟩, ⟨10, 14⟩] [⟨0, 0⟩, ⟨2, 0⟩, ⟨0, 2⟩] = some [] ∧
    calculateBooleanOpWA 10 BooleanOpType.Union
        [⟨10, 10⟩, ⟨14, 10⟩, ⟨10, 14⟩] [⟨0, 0⟩, ⟨2, 0⟩, ⟨0, 2⟩] =
      some [normalizeCCW [⟨10, 10⟩, ⟨14, 10⟩, ⟨10, 14⟩],
        normalizeCCW [⟨0, 0⟩, ⟨2, 0⟩, ⟨0, 2⟩]] :=
  (c5_weiler_degenerate_fallback [⟨10, 10⟩, ⟨14, 10⟩, ⟨10, 14⟩] [⟨0, 0⟩, ⟨2, 0⟩, ⟨0, 2⟩]
    10 (by decide) (by decide) (by decide)).2 (by decide)

/-- C10: the Weiler–Atherton step rewrites only `weilerResultPolygons`; the
stored operand polygons after the call are the ones stored before it. -/
theorem c10_weiler_preserves_operands (fuel : Nat) (opType : BooleanOpType)
    (st st' : BoolOpState) (h : weilerAthertonStep fuel opType st = some st') :
    st'.polygonA = st.polygonA ∧ st'.polygonB = st.polygonB := by
  unfold weilerAthertonStep at h
  cases hr : calculateBooleanOpWA fuel opType st.polygonA st.polygonB with
  | none => rw [hr] at h; exact absurd h (by simp)
  | some r =>
    rw [hr] at h
    simp only [Option.map_some'] at h
    cases h
    exact ⟨rfl, rfl⟩

/-- Witness for C10: a complete concrete union run leaves both operands in
the state unchanged. -/
theorem c10_weiler_preserves_operands_witness :
    (⟨[⟨10, 10⟩, ⟨14, 10⟩, ⟨10, 14⟩], [⟨0, 0⟩, ⟨2, 0⟩, ⟨0, 2⟩],
        [[⟨10, 14⟩, ⟨14, 10⟩, ⟨10, 10⟩], [⟨0, 2⟩, ⟨2, 0⟩, ⟨0, 0⟩]]⟩ : BoolOpState).polygonA =
      (⟨[⟨10, 10⟩, ⟨14, 10⟩, ⟨10, 14⟩], [⟨0, 0⟩, ⟨2, 0⟩, ⟨0, 2⟩], []⟩ : BoolOpState).polygonA ∧
    (⟨[⟨10, 10⟩, ⟨14, 10⟩, ⟨10, 14⟩], [⟨0, 0⟩, ⟨2, 0⟩, ⟨0, 2⟩],
        [[⟨10, 14⟩, ⟨14, 10⟩, ⟨10, 10⟩], [⟨0, 2⟩, ⟨2, 0⟩, ⟨0, 0⟩]]⟩ : BoolOpState).polygonB =
      (⟨[⟨10, 10⟩, ⟨14, 10⟩, ⟨10, 14⟩], [⟨0, 0⟩, ⟨2, 0⟩, ⟨0, 2⟩], []⟩ : BoolOpState).polygonB :=
  c10_weiler_preserves_operands 10 BooleanOpType.Union
    ⟨[⟨10, 10⟩, ⟨14, 10⟩, ⟨10, 14⟩], [⟨0, 0⟩, ⟨2, 0⟩, ⟨0, 2⟩], []⟩
    ⟨[⟨10, 10⟩, ⟨14, 10⟩, ⟨10, 14⟩], [⟨0, 0⟩, ⟨2, 0⟩, ⟨0, 2⟩],
      [[⟨10, 14⟩, ⟨14, 10⟩, ⟨10, 10⟩], [⟨0, 2⟩, ⟨2, 0⟩, ⟨0, 0⟩]]⟩ (by decide)

/-! ## The two convex-hull algorithms

`std::sort` is modelled by a stable insertion sort over the source's strict
comparator: for inputs on which the comparator is a strict weak order this
agrees with `std::sort` up to the (unspecified) relative order of
equivalent elements, and in the evaluation below no two points compare
equivalent. -/

/-- Insert into a sorted list: `le p q` means `p` may precede `q`. -/
def insertSorted (le : Pt → Pt → Bool) (p : Pt) : List Pt → List Pt
  | [] => [p]
  | q :: rest => if le p q then p :: q :: rest else q :: insertSorted le p rest

/-- Stable insertion sort. -/
def sortBy (le : Pt → Pt → Bool) : List Pt → List Pt
  | [] => []
  | p :: rest => insertSorted le p (sortBy le rest)

/-- The strict comparator of `calculateConvexHull_Andrew`'s `std::sort`. -/
def cmpAndrew (a b : Pt) : Bool :=
  a.x < b.x ∨ (a.x = b.x ∧ a.y < b.y)

/-- The hull-chain step shared by both algorithms (the chain is kept
reversed, most recent point first): pop while the last two chain points and
the new point fail to make a strict left turn (`cross ≤ 0`), then push. -/
def chainStep (chain : List Pt) (p : Pt) : List Pt :=
  match chain with
  | b :: a :: rest => if crossProduct a b p ≤ 0 then chainStep (a :: rest) p else p :: chain
  | _ => p :: chain

/-- `DrawingWidget::calculateConvexHull_Andrew` (monotone chain): sort by
`(x, y)`, build lower and upper chains popping on `cross ≤ 0`, concatenate
dropping the duplicated chain endpoints.  (With fewer than three points the
source returns early leaving the previous hull; the empty list stands for
that untouched default.) -/
def calculateConvexHull_Andrew (points : List Pt) : List Pt :=
  if points.length < 3 then []
  else
    (((sortBy (fun a b => !cmpAndrew b a) points).foldl chainStep []).reverse).dropLast ++
      ((((sortBy (fun a b => !cmpAndrew b a) points).reverse).foldl chainStep
        []).reverse).dropLast

/-- Squared distance as computed in the Graham comparator. -/
def distSq (a b : Pt) : ℚ :=
  (a.x - b.x) * (a.x - b.x) + (a.y - b.y) * (a.y - b.y)

/-- The polar-angle comparator of `calculateConvexHull_Graham`: pairs whose
cross product is within `1e-9` of zero are ordered by distance from the
pivot (nearer first), the rest by the cross-product sign. -/
def cmpGraham (p0 a b : Pt) : Bool :=
  if |crossProduct p0 a b| < 1 / 1000000000 then distSq p0 a < distSq p0 b
  else crossProduct p0 a b > 0

/-- The pivot search of `calculateConvexHull_Graham`: index of the lowest-y
(tie: lowest-x) point, first occurrence. -/
def minYIdx (tp : List Pt) : Nat :=
  (List.range tp.length).foldl
    (fun mi i =>
      if (tp.getD i ⟨0, 0⟩).y < (tp.getD mi ⟨0, 0⟩).y ∨
          ((tp.getD i ⟨0, 0⟩).y = (tp.getD mi ⟨0, 0⟩).y ∧
            (tp.getD i ⟨0, 0⟩).x < (tp.getD mi ⟨0, 0⟩).x) then i
      else mi)
    0

/-- `std::swap(tempPoints[0], tempPoints[minY_idx])`. -/
def listSwap (l : List Pt) (i j : Nat) : List Pt :=
  match l[i]?, l[j]? with
  | some a, some b => (l.set i b).set j a
  | _, _ => l

/-- `DrawingWidget::calculateConvexHull_Graham` (angular sweep): pivot at
the lowest point, sort the rest by the epsilon-tolerant angular comparator,
then sweep with the same `cross ≤ 0` popping rule. -/
def calculateConvexHull_Graham (points : List Pt) : List Pt :=
  if points.length < 3 then []
  else
    match listSwap points 0 (minYIdx points) with
    | [] => []
    | p0 :: rest =>
      match p0 :: sortBy (fun a b => !cmpGraham p0 b a) rest with
      | t0 :: t1 :: t2 :: trest => ((t2 :: trest).foldl chainStep [t1, t0]).reverse
      | short => short

/-- The three non-collinear points on which the two algorithms disagree. -/
def hullBugPoints : List Pt := [⟨0, 0⟩, ⟨3, 0⟩, ⟨2, 1 / 10000000000⟩]

/-- C2: on the point set `[(0,0), (3,0), (2, 1e-10)]` — three genuinely
non-collinear points — Andrew's exact monotone chain keeps all three
vertices while Graham's sweep, whose comparator treats the pair with
`|cross| = 3e-10 < 1e-9` as collinear and orders it by distance, pops the
true hull vertex `(2, 1e-10)` and returns only two points; that vertex lies
strictly outside the returned degenerate hull (`onSegment` refutes it). -/
theorem c2_hull_algorithms_disagree :
    crossProduct ⟨0, 0⟩ ⟨3, 0⟩ ⟨2, 1 / 10000000000⟩ ≠ 0 ∧
    calculateConvexHull_Andrew hullBugPoints =
      [⟨0, 0⟩, ⟨3, 0⟩, ⟨2, 1 / 10000000000⟩] ∧
    calculateConvexHull_Graham hullBugPoints = [⟨0, 0⟩, ⟨3, 0⟩] ∧
    (⟨2, 1 / 10000000000⟩ : Pt) ∈ calculateConvexHull_Andrew hullBugPoints ∧
    (⟨2, 1 / 10000000000⟩ : Pt) ∉ calculateConvexHull_Graham hullBugPoints ∧
    onSegment ⟨0, 0⟩ ⟨3, 0⟩ ⟨2, 1 / 10000000000⟩ = false := by
  refine ⟨by decide, by decide, by decide, by decide, by decide, by decide⟩

end CompGeo
